import Mathlib

/-!
# Verification of the potentials-utils library index core

Shallow embedding of the Go sources of `potentials-utils`:

* `prefixtree/prefix_tree.go` — the prefix tree (`PrefixTree`, `prefixNode`,
  `Add`, `Contains`, `String`),
* `main.go` — the Spotify library index (`SpotifyLibraryIndex`,
  `IndexTrack`, `MakeItFresh`, `Alive`, `trackIndexString`, `containsAll`,
  `GetBySongAlbumArtistNames`) and the library service orchestration
  (`NewLibraryService`, `persistLibrary`, `readyLibrary`,
  `indexFromSpotify`, `indexFromCacheFile`, `GetByID`).

Modelling conventions:
* Go strings are iterated by rune; a rune path is a `List Char`.
* A Go `map` is modelled as an association list kept in insertion order
  (first insertion fixes the slot, later writes overwrite in place); this
  fixes one admissible iteration order of the Go map, which guarantees no
  order at all.
* `time.Time` / `time.Duration` are modelled as `Nat`; the current time is
  passed explicitly to every operation that calls `time.Now()`.
* The mutation of struct fields is modelled by state passing; fallible Go
  functions returning `error` become `Except Unit`.
-/

/-- `prefixNode` from `prefix_tree.go`: one symbol plus a mapping from
symbol to child node.  The `children` Go map is an association list in
insertion order. -/
inductive PrefixNode : Type where
  | mk (data : Char) (children : List (Char × PrefixNode)) : PrefixNode
deriving Repr

/-- The symbol held by a node. -/
def PrefixNode.data : PrefixNode → Char
  | .mk d _ => d

/-- The children mapping of a node. -/
def PrefixNode.children : PrefixNode → List (Char × PrefixNode)
  | .mk _ cs => cs

/-- `prefixNode.childPrefixes`: the keys of the children map. -/
def PrefixNode.childPrefixes (p : PrefixNode) : List Char :=
  p.children.map Prod.fst

/-- `prefixNode.childNodes`: the values of the children map. -/
def PrefixNode.childNodes (p : PrefixNode) : List PrefixNode :=
  p.children.map Prod.snd

/-- `newPrefixNode`: a node with the given symbol and no children. -/
def newPrefixNode (c : Char) : PrefixNode :=
  .mk c []

/-- Go map read `children[c]` on the association list. -/
def lookupChild : List (Char × PrefixNode) → Char → Option PrefixNode
  | [], _ => none
  | (c', n) :: rest, c => if c' = c then some n else lookupChild rest c

/-- Go map write `children[c] = n` on the association list: overwrite in
place, or append when the key is absent. -/
def setChild : List (Char × PrefixNode) → Char → PrefixNode → List (Char × PrefixNode)
  | [], c, n => [(c, n)]
  | (c', n') :: rest, c, n =>
    if c' = c then (c, n) :: rest else (c', n') :: setChild rest c n

/-- `PrefixTree` from `prefix_tree.go`: a root node. -/
structure PrefixTree : Type where
  Root : PrefixNode
deriving Repr

/-- `NewPrefixTree`: root holds the sentinel backslash rune. -/
def NewPrefixTree : PrefixTree :=
  ⟨newPrefixNode '\\'⟩

/-- The loop body of `PrefixTree.Add`, walking one rune of the key at a
time; at each step descend into the existing child for the rune or into a
freshly created one. -/
def PrefixNode.addPath : PrefixNode → List Char → PrefixNode
  | n, [] => n
  | .mk d cs, c :: rest =>
    match lookupChild cs c with
    | some child => .mk d (setChild cs c (child.addPath rest))
    | none => .mk d (setChild cs c ((newPrefixNode c).addPath rest))

/-- `PrefixTree.Add`: adds the given string (as its rune sequence) to the
prefix tree. -/
def PrefixTree.Add (p : PrefixTree) (s : String) : PrefixTree :=
  ⟨p.Root.addPath s.data⟩

/-- The loop body of `PrefixTree.Contains`: walk the runes from the root,
failing as soon as a rune has no child. -/
def PrefixNode.containsPath : PrefixNode → List Char → Bool
  | _, [] => true
  | .mk _ cs, c :: rest =>
    match lookupChild cs c with
    | some child => child.containsPath rest
    | none => false

/-- `PrefixTree.Contains`: true when there is a root traversal spelling the
given string. -/
def PrefixTree.Contains (p : PrefixTree) (s : String) : Bool :=
  p.Root.containsPath s.data

section TrieLemmas

theorem lookupChild_setChild_self (cs : List (Char × PrefixNode)) (c : Char)
    (n : PrefixNode) : lookupChild (setChild cs c n) c = some n := by
  induction cs with
  | nil => simp [setChild, lookupChild]
  | cons hd tl ih =>
    obtain ⟨c', n'⟩ := hd
    by_cases h : c' = c
    · simp [setChild, h, lookupChild]
    · simp [setChild, h, lookupChild, ih]

theorem lookupChild_setChild_ne (cs : List (Char × PrefixNode)) (c c₀ : Char)
    (n : PrefixNode) (h : c₀ ≠ c) :
    lookupChild (setChild cs c n) c₀ = lookupChild cs c₀ := by
  induction cs with
  | nil => simp [setChild, lookupChild, Ne.symm h]
  | cons hd tl ih =>
    obtain ⟨c', n'⟩ := hd
    by_cases hc : c' = c
    · subst hc
      simp [setChild, lookupChild, Ne.symm h]
    · simp [setChild, hc, lookupChild, ih]

theorem containsPath_new (a : Char) (K : List Char) :
    (newPrefixNode a).containsPath K = K.isEmpty := by
  cases K with
  | nil => rfl
  | cons c rest => simp [newPrefixNode, PrefixNode.containsPath, lookupChild, List.isEmpty]

/-- Master lemma: adding a path `s` makes exactly the prefixes of `s`
contained, on top of what was already contained. -/
theorem containsPath_addPath (K : List Char) :
    ∀ (t : PrefixNode) (s : List Char),
      (t.addPath s).containsPath K = (t.containsPath K || K.isPrefixOf s) := by
  induction K with
  | nil =>
    intro t s
    cases t with
    | mk d cs => cases s <;> simp [PrefixNode.addPath, PrefixNode.containsPath]
  | cons c K' ih =>
    intro t s
    cases t with
    | mk d cs =>
      cases s with
      | nil =>
        simp [PrefixNode.addPath]
      | cons c' s' =>
        by_cases hc : c = c'
        · subst hc
          cases hl : lookupChild cs c with
          | some child =>
            simp only [PrefixNode.addPath, hl, PrefixNode.containsPath,
              lookupChild_setChild_self, ih, List.isPrefixOf_cons₂_self]
          | none =>
            simp only [PrefixNode.addPath, hl, PrefixNode.containsPath,
              lookupChild_setChild_self, ih, List.isPrefixOf_cons₂_self]
            rw [containsPath_new]
            cases K' <;> simp
        · cases hl : lookupChild cs c' with
          | some child =>
            simp only [PrefixNode.addPath, hl, PrefixNode.containsPath,
              lookupChild_setChild_ne _ _ _ _ hc]
            simp [List.isPrefixOf, hc]
          | none =>
            simp only [PrefixNode.addPath, hl, PrefixNode.containsPath,
              lookupChild_setChild_ne _ _ _ _ hc]
            simp [List.isPrefixOf, hc]

/-- Folding `addPath` over a list of keys: contained afterwards iff
contained before or a prefix of one of the keys. -/
theorem containsPath_foldl_addPath (keys : List (List Char)) :
    ∀ (t : PrefixNode) (K : List Char),
      (keys.foldl PrefixNode.addPath t).containsPath K
        = (t.containsPath K || keys.any (fun s => K.isPrefixOf s)) := by
  induction keys with
  | nil => simp
  | cons s rest ih =>
    intro t K
    simp [List.foldl_cons, ih, containsPath_addPath, Bool.or_assoc]

end TrieLemmas

/-- Claim C5: trie membership is exactly prefix membership of the inserted
set — after any sequence of `Add` calls on a fresh tree, `Contains K` holds
iff `K` is empty or `K` is a (rune-sequence) prefix of some inserted key. -/
theorem trie_contains_iff_prefix_of_inserted (keys : List String) (K : String) :
    (keys.foldl PrefixTree.Add NewPrefixTree).Contains K = true
      ↔ (K.data = [] ∨ ∃ s ∈ keys, K.data <+: s.data) := by
  have hfold : (keys.foldl PrefixTree.Add NewPrefixTree).Root
      = (keys.map String.data).foldl PrefixNode.addPath (newPrefixNode '\\') := by
    induction keys using List.reverseRecOn with
    | nil => rfl
    | append_singleton rest s ih => simp [PrefixTree.Add, ih]
  rw [PrefixTree.Contains, hfold, containsPath_foldl_addPath, containsPath_new]
  simp only [Bool.or_eq_true, List.isEmpty_iff, List.any_eq_true, List.mem_map]
  constructor
  · rintro (h | ⟨s, ⟨w, hw, rfl⟩, hpre⟩)
    · exact Or.inl h
    · exact Or.inr ⟨w, hw, by simpa using hpre⟩
  · rintro (h | ⟨w, hw, hpre⟩)
    · exact Or.inl h
    · exact Or.inr ⟨w.data, ⟨w, hw, rfl⟩, by simpa using hpre⟩

/-! ## Level-ordered serialization (`PrefixTree.String` in `prefix_tree.go`) -/

theorem sum_sizeOf_snd_lt (cs : List (Char × PrefixNode)) :
    ((cs.map Prod.snd).map sizeOf).sum < sizeOf cs := by
  induction cs with
  | nil => simp
  | cons hd tl ih =>
    obtain ⟨c, t⟩ := hd
    simp only [List.map_cons, List.sum_cons]
    simp only [List.cons.sizeOf_spec, Prod.mk.sizeOf_spec]
    omega

theorem sizeOf_childNodes_lt (n : PrefixNode) :
    ((n.childNodes).map sizeOf).sum < sizeOf n := by
  cases n with
  | mk d cs =>
    have := sum_sizeOf_snd_lt cs
    simp only [PrefixNode.childNodes, PrefixNode.children, PrefixNode.mk.sizeOf_spec]
    omega

/-- Loop of `PrefixTree.String`: while the worklist `q` is non-empty, write
the child symbols of `next` (each followed by a comma), then pop the LAST
element of the slice (`next, q = q[len(q)-1], q[:len(q)-1]` — despite the
`queue pop` comment this takes the most recently appended element) and
append its children to the worklist. -/
def stringLoop (next : PrefixNode) (q : List PrefixNode) (acc : List Char) : List Char :=
  match h : q with
  | [] => acc
  | _ :: _ =>
    have hq : q ≠ [] := by simp [h]
    let acc2 := next.childPrefixes.foldl (fun a c => a ++ [c, ',']) acc
    let next2 := q.getLast hq
    stringLoop next2 (q.dropLast ++ next2.childNodes) acc2
termination_by (q.map sizeOf).sum
decreasing_by
  rw [← h]
  have hsplit : q.dropLast ++ [q.getLast hq] = q := List.dropLast_append_getLast hq
  have hlt : ((q.getLast hq).childNodes.map sizeOf).sum < sizeOf (q.getLast hq) :=
    sizeOf_childNodes_lt _
  calc ((q.dropLast ++ (q.getLast hq).childNodes).map sizeOf).sum
      = (q.dropLast.map sizeOf).sum + ((q.getLast hq).childNodes.map sizeOf).sum := by
        simp
    _ < (q.dropLast.map sizeOf).sum + sizeOf (q.getLast hq) := by omega
    _ = ((q.dropLast ++ [q.getLast hq]).map sizeOf).sum := by simp
    _ = (q.map sizeOf).sum := by rw [hsplit]

/-- `PrefixTree.String`: starts with `next = Root` and `q = Root.childNodes`
and runs the loop; the produced Go string is returned as its rune list. -/
def PrefixTree.String (p : PrefixTree) : List Char :=
  stringLoop p.Root p.Root.childNodes []

/-- All symbols occurring at a given depth below a node (the node itself is
depth 0, its children depth 1, and so on). -/
def symbolsAtDepth : Nat → PrefixNode → List Char
  | 0, n => [n.data]
  | d + 1, n => (n.childNodes.map (symbolsAtDepth d)).flatten

/-- Claim C4 (refuting evaluation): on the tree holding the keys "ac" and
"bef" (children enumerated in insertion order, one admissible iteration
order of the Go map), `PrefixTree.String` prints "a,b,e,f,c," — the symbol
'f', which occurs only at depth 3, is printed before the symbol 'c', which
occurs only at depth 2, because the loop pops the worklist from the tail
(LIFO) instead of the head.  This contradicts the claimed level ordering. -/
theorem stringBFS_breaks_level_order :
    ((NewPrefixTree.Add "ac").Add "bef").String = "a,b,e,f,c,".data
    ∧ symbolsAtDepth 2 ((NewPrefixTree.Add "ac").Add "bef").Root = ['c', 'e']
    ∧ symbolsAtDepth 3 ((NewPrefixTree.Add "ac").Add "bef").Root = ['f']
    ∧ (((NewPrefixTree.Add "ac").Add "bef").String.indexOf 'f'
        < ((NewPrefixTree.Add "ac").Add "bef").String.indexOf 'c') := by
  have hs : ((NewPrefixTree.Add "ac").Add "bef").String = "a,b,e,f,c,".data := by
    simp [PrefixTree.String, PrefixTree.Add, NewPrefixTree, PrefixNode.addPath,
      newPrefixNode, lookupChild, setChild, stringLoop, PrefixNode.childNodes,
      PrefixNode.childPrefixes, PrefixNode.children, String.data]
  refine ⟨hs, by decide, by decide, ?_⟩
  rw [hs]
  decide

/-! ## Library index (`main.go`) -/

/-- `spotify.SavedTrack` restricted to the fields the index reads: the
stable identifier, the track name (`v.Name`), the album name
(`v.Album.Name`) and the artist names (`getArtistNames(v.SimpleTrack)`,
which copies the `Name` of each artist into a fresh slice). -/
structure SavedTrack : Type where
  id : String
  name : String
  albumName : String
  artists : List String
deriving Repr, DecidableEq

/-- `getArtistNames`: the list of artist names of a track (the struct above
already stores the names, so this is the projection). -/
def getArtistNames (t : SavedTrack) : List String :=
  t.artists

/-- Go's string comparison: lexicographic on the bytes, which for UTF-8
encoded text coincides with lexicographic comparison of the rune
sequences. -/
def strDataLe (a b : String) : Prop := a.data ≤ b.data

instance : DecidableRel strDataLe :=
  fun a b => inferInstanceAs (Decidable (a.data ≤ b.data))

instance : IsTotal String strDataLe := ⟨fun a b => le_total a.data b.data⟩

instance : IsTrans String strDataLe := ⟨fun _ _ _ h1 h2 => le_trans h1 h2⟩

instance : IsAntisymm String strDataLe :=
  ⟨fun _ _ h1 h2 => String.ext (le_antisymm h1 h2)⟩

/-- `sort.Strings`: sorts a string slice ascending.  Since the Go string
order is total and antisymmetric, the sorted permutation of a list is
unique as a list, so any correct sorting algorithm — including the one the
Go standard library uses — produces exactly this list. -/
def sortStrings (l : List String) : List String :=
  List.insertionSort strDataLe l

/-- `trackIndexString` with the in-place `sort.Strings(artistNames)`
mutation made explicit: returns the built index string (track name, album
name, then each artist name in ascending order, no delimiter) together
with the final contents of the caller's `artistNames` slice. -/
def trackIndexStringState (trackName albumName : String) (artistNames : List String) :
    String × List String :=
  let sorted := sortStrings artistNames
  (sorted.foldl (fun acc a => acc ++ a) (trackName ++ albumName), sorted)

/-- The string returned by `trackIndexString`. -/
def trackIndexString (trackName albumName : String) (artistNames : List String) : String :=
  (trackIndexStringState trackName albumName artistNames).1

/-- `containsAll` from `main.go`, with the inoperative length guard kept as
written in the source (it compares `len(list2)` against itself). -/
def containsAll (list1 list2 : List String) : Bool :=
  if list2.length ≠ list2.length then
    false
  else
    list1.foldl
      (fun acc e1 => acc && (list2.foldl (fun found e2 => found || (e1 == e2)) false))
      true

/-- Go map read on the identifier map. -/
def mapRead : List (String × SavedTrack) → String → Option SavedTrack
  | [], _ => none
  | (k', v') :: rest, k => if k' = k then some v' else mapRead rest k

/-- Go map write on the identifier map: overwrite in place, or append when
the key is absent. -/
def mapWrite : List (String × SavedTrack) → String → SavedTrack → List (String × SavedTrack)
  | [], k, v => [(k, v)]
  | (k', v') :: rest, k, v =>
    if k' = k then (k, v) :: rest else (k', v') :: mapWrite rest k v

/-- `SpotifyLibraryIndex` from `main.go`. -/
structure SpotifyLibraryIndex : Type where
  tracksByID : List (String × SavedTrack)
  trackSearchTree : PrefixTree
  lifetime : Nat
  evictionTime : Nat
deriving Repr

/-- `NewSpotifyLibraryIndex`: empty map, fresh tree, lifetime taken from
the configuration, eviction time set to the current instant (so the new
index is not yet alive). -/
def NewSpotifyLibraryIndex (cfgLifetime now : Nat) : SpotifyLibraryIndex :=
  { tracksByID := []
    trackSearchTree := NewPrefixTree
    lifetime := cfgLifetime
    evictionTime := now }

/-- `addTrackToSearchTree`: adds the track's composite search term to the
tree.  The artist slice handed to `trackIndexString` is the fresh copy
built by `getArtistNames`, so its in-place sort is invisible here. -/
def SpotifyLibraryIndex.addTrackToSearchTree (i : SpotifyLibraryIndex)
    (v : SavedTrack) : SpotifyLibraryIndex :=
  { i with trackSearchTree :=
      i.trackSearchTree.Add (trackIndexString v.name v.albumName (getArtistNames v)) }

/-- `IndexTrack`: upsert into the identifier map, then append the track's
search term to the tree. -/
def SpotifyLibraryIndex.IndexTrack (i : SpotifyLibraryIndex) (k : String)
    (v : SavedTrack) : SpotifyLibraryIndex :=
  ({ i with tracksByID := mapWrite i.tracksByID k v }).addTrackToSearchTree v

/-- `MakeItFresh`: eviction time becomes now plus the lifetime. -/
def SpotifyLibraryIndex.MakeItFresh (i : SpotifyLibraryIndex) (now : Nat) :
    SpotifyLibraryIndex :=
  { i with evictionTime := now + i.lifetime }

/-- `Alive`: `time.Now().Before(evictionTime)`, a strict comparison. -/
def SpotifyLibraryIndex.Alive (i : SpotifyLibraryIndex) (now : Nat) : Bool :=
  now < i.evictionTime

/-- The body of `GetBySongAlbumArtistNames` after the `readyLibrary` call:
derive the search string (sorting the caller's `artistNames` slice in
place), pre-filter through the trie, and on a trie hit scan the whole
identifier map with the exact-field test.  Returns the matches together
with the final contents of the caller's `artistNames` slice. -/
def SpotifyLibraryIndex.GetBySongAlbumArtistNamesScan (i : SpotifyLibraryIndex)
    (songName albumName : String) (artistNames : List String) :
    List SavedTrack × List String :=
  let derived := trackIndexStringState songName albumName artistNames
  if i.trackSearchTree.Contains derived.1 then
    (i.tracksByID.foldl
      (fun acc p =>
        if p.2.name == songName && p.2.albumName == albumName
            && containsAll (getArtistNames p.2) derived.2 then
          acc ++ [p.2]
        else acc)
      [], derived.2)
  else
    ([], derived.2)

section SortLemmas

theorem sortStrings_perm (l : List String) : (sortStrings l).Perm l :=
  List.perm_insertionSort _ _

theorem sortStrings_sorted (l : List String) : List.Sorted strDataLe (sortStrings l) :=
  List.sorted_insertionSort _ _

theorem sortStrings_congr_perm (l1 l2 : List String) (h : l1.Perm l2) :
    sortStrings l1 = sortStrings l2 :=
  List.eq_of_perm_of_sorted
    (((sortStrings_perm l1).trans h).trans (sortStrings_perm l2).symm)
    (sortStrings_sorted l1) (sortStrings_sorted l2)

theorem foldl_append_data (l : List String) :
    ∀ init : String, (l.foldl (fun acc a => acc ++ a) init).data
      = init.data ++ (l.map String.data).flatten := by
  induction l with
  | nil => intro init; simp
  | cons a rest ih => intro init; simp [ih]

end SortLemmas

/-- Claim C7: `trackIndexString` is exactly the delimiter-free
concatenation of the track name, the album name, and the artist names in
ascending order; consequently it is invariant under permutation of the
artist list. -/
theorem trackIndexString_concat_sorted_perm_invariant :
    (∀ (a b : String) (l : List String),
      (trackIndexString a b l).data
        = a.data ++ b.data ++ ((sortStrings l).map String.data).flatten)
    ∧ (∀ (a b : String) (l1 l2 : List String), l1.Perm l2 →
      trackIndexString a b l1 = trackIndexString a b l2) := by
  constructor
  · intro a b l
    simp [trackIndexString, trackIndexStringState, foldl_append_data, List.append_assoc]
  · intro a b l1 l2 h
    simp [trackIndexString, trackIndexStringState, sortStrings_congr_perm l1 l2 h]

/-- Witness for C7 at a concrete permuted pair of artist lists. -/
theorem trackIndexString_concat_sorted_perm_invariant_witness :
    trackIndexString "Song A" "X" ["Bob", "Ann"]
      = trackIndexString "Song A" "X" ["Ann", "Bob"] :=
  trackIndexString_concat_sorted_perm_invariant.2 "Song A" "X"
    ["Bob", "Ann"] ["Ann", "Bob"] (by decide)

/-- Claim C9: freshness is the strict comparison `now < evictionTime` —
`Alive` is true right after `MakeItFresh` exactly when the lifetime is
positive, an index whose eviction time has been reached is not alive, and
with lifetime zero the index is stale immediately after `MakeItFresh`. -/
theorem alive_strict_freshness (i : SpotifyLibraryIndex) (now : Nat) :
    ((i.MakeItFresh now).Alive now = true ↔ 0 < i.lifetime)
    ∧ (∀ t, i.evictionTime ≤ t → i.Alive t = false)
    ∧ (i.lifetime = 0 → (i.MakeItFresh now).Alive now = false)
    ∧ (i.Alive now = true ↔ now < i.evictionTime) := by
  refine ⟨?_, ?_, ?_, ?_⟩
  · simp [SpotifyLibraryIndex.MakeItFresh, SpotifyLibraryIndex.Alive]
  · intro t ht
    simp [SpotifyLibraryIndex.Alive]
    omega
  · intro h
    simp [SpotifyLibraryIndex.MakeItFresh, SpotifyLibraryIndex.Alive, h]
  · simp [SpotifyLibraryIndex.Alive]

/-- Witness for C9 on a concrete index: eviction time 7 is reached at time
9, and a zero-lifetime index is immediately stale after `MakeItFresh`. -/
theorem alive_strict_freshness_witness :
    (SpotifyLibraryIndex.Alive ⟨[], NewPrefixTree, 5, 7⟩ 9 = false)
    ∧ ((SpotifyLibraryIndex.MakeItFresh ⟨[], NewPrefixTree, 0, 7⟩ 9).Alive 9 = false) :=
  ⟨(alive_strict_freshness ⟨[], NewPrefixTree, 5, 7⟩ 9).2.1 9 (by decide),
   (alive_strict_freshness ⟨[], NewPrefixTree, 0, 7⟩ 9).2.2.1 rfl⟩

/-- Claim C10: deriving a composite key sorts the caller's artist slice in
place — after `trackIndexString` (and hence after the
`GetBySongAlbumArtistNames` scan) the slice holds the ascending sorted
permutation of what was passed, which differs from the passed order for
unsorted input. -/
theorem trackIndexString_sorts_caller_slice :
    (∀ (a b : String) (l : List String),
      (trackIndexStringState a b l).2 = sortStrings l
      ∧ ((trackIndexStringState a b l).2).Perm l
      ∧ List.Sorted strDataLe (trackIndexStringState a b l).2)
    ∧ (trackIndexStringState "s" "x" ["Bob", "Ann"]).2 ≠ ["Bob", "Ann"]
    ∧ (∀ (i : SpotifyLibraryIndex) (a b : String) (l : List String),
      (i.GetBySongAlbumArtistNamesScan a b l).2 = sortStrings l) := by
  refine ⟨fun a b l => ⟨rfl, sortStrings_perm l, sortStrings_sorted l⟩, by decide, ?_⟩
  intro i a b l
  simp only [SpotifyLibraryIndex.GetBySongAlbumArtistNamesScan]
  split <;> rfl

section IndexLemmas

theorem mapRead_mapWrite_self (m : List (String × SavedTrack)) (k : String)
    (v : SavedTrack) : mapRead (mapWrite m k v) k = some v := by
  induction m with
  | nil => simp [mapWrite, mapRead]
  | cons hd tl ih =>
    obtain ⟨k', v'⟩ := hd
    by_cases h : k' = k
    · simp [mapWrite, h, mapRead]
    · simp [mapWrite, h, mapRead, ih]

theorem mem_mapWrite (m : List (String × SavedTrack)) (k : String) (v : SavedTrack)
    (p : String × SavedTrack) (hp : p ∈ mapWrite m k v) : p = (k, v) ∨ p ∈ m := by
  induction m with
  | nil => simpa [mapWrite] using hp
  | cons hd tl ih =>
    obtain ⟨k', v'⟩ := hd
    by_cases h : k' = k
    · rw [mapWrite, if_pos h] at hp
      rcases List.mem_cons.mp hp with h1 | h1
      · exact Or.inl h1
      · exact Or.inr (List.mem_cons_of_mem _ h1)
    · rw [mapWrite, if_neg h] at hp
      rcases List.mem_cons.mp hp with h1 | h1
      · exact Or.inr (by simp [h1])
      · rcases ih h1 with h2 | h2
        · exact Or.inl h2
        · exact Or.inr (List.mem_cons_of_mem _ h2)

theorem contains_Add_self (t : PrefixTree) (s : String) :
    (t.Add s).Contains s = true := by
  simp [PrefixTree.Add, PrefixTree.Contains, containsPath_addPath]

theorem contains_Add_mono (t : PrefixTree) (s K : String)
    (h : t.Contains K = true) : (t.Add s).Contains K = true := by
  simp [PrefixTree.Add, PrefixTree.Contains, containsPath_addPath] at h ⊢
  exact Or.inl h

end IndexLemmas

/-- The composite search term a track contributes to the search tree, as
built inside `addTrackToSearchTree`. -/
def searchTerm (v : SavedTrack) : String :=
  trackIndexString v.name v.albumName (getArtistNames v)

/-- The map-to-trie invariant of the spec: every record in the identifier
map has its composite key present in the trie. -/
def mapKeysInTree (i : SpotifyLibraryIndex) : Prop :=
  ∀ p ∈ i.tracksByID, i.trackSearchTree.Contains (searchTerm p.2) = true

theorem mapKeysInTree_indexTrack (i : SpotifyLibraryIndex) (k : String)
    (v : SavedTrack) (h : mapKeysInTree i) : mapKeysInTree (i.IndexTrack k v) := by
  intro p hp
  simp only [SpotifyLibraryIndex.IndexTrack,
    SpotifyLibraryIndex.addTrackToSearchTree] at hp ⊢
  rcases mem_mapWrite _ _ _ _ hp with rfl | hmem
  · exact contains_Add_self _ _
  · exact contains_Add_mono _ _ _ (h p hmem)

theorem mapKeysInTree_foldl (ops : List (String × SavedTrack)) :
    ∀ (i : SpotifyLibraryIndex), mapKeysInTree i →
      mapKeysInTree (ops.foldl (fun j kv => j.IndexTrack kv.1 kv.2) i) := by
  induction ops with
  | nil => intro i h; exact h
  | cons kv rest ih =>
    intro i h
    exact ih _ (mapKeysInTree_indexTrack i kv.1 kv.2 h)

/-- Claim C8: `IndexTrack` upserts — a fresh read under the same id yields
the latest record, the trie still contains the composite key of the
overwritten record (append-only trie), and after any sequence of
`IndexTrack` calls every record in the map has its composite key in the
trie. -/
theorem indexTrack_upsert_append_only_invariant :
    (∀ (i : SpotifyLibraryIndex) (k : String) (v : SavedTrack),
      mapRead (i.IndexTrack k v).tracksByID k = some v)
    ∧ (∀ (i : SpotifyLibraryIndex) (k : String) (v1 v2 : SavedTrack),
      mapRead ((i.IndexTrack k v1).IndexTrack k v2).tracksByID k = some v2
      ∧ ((i.IndexTrack k v1).IndexTrack k v2).trackSearchTree.Contains
          (searchTerm v1) = true)
    ∧ (∀ (ops : List (String × SavedTrack)) (cfg now : Nat),
      mapKeysInTree
        (ops.foldl (fun j kv => j.IndexTrack kv.1 kv.2) (NewSpotifyLibraryIndex cfg now))) := by
  refine ⟨?_, ?_, ?_⟩
  · intro i k v
    simp [SpotifyLibraryIndex.IndexTrack, SpotifyLibraryIndex.addTrackToSearchTree,
      mapRead_mapWrite_self]
  · intro i k v1 v2
    constructor
    · simp [SpotifyLibraryIndex.IndexTrack, SpotifyLibraryIndex.addTrackToSearchTree,
        mapRead_mapWrite_self]
    · simp only [SpotifyLibraryIndex.IndexTrack, SpotifyLibraryIndex.addTrackToSearchTree]
      exact contains_Add_mono _ _ _ (contains_Add_self _ _)
  · intro ops cfg now
    refine mapKeysInTree_foldl ops _ ?_
    intro p hp
    simp [NewSpotifyLibraryIndex] at hp

/-- A concrete track used by witnesses. -/
def sampleTrack : SavedTrack :=
  { id := "1", name := "Song A", albumName := "X", artists := ["Ann", "Bob"] }

/-- Witness for C8: the invariant instantiated on a one-insertion index. -/
theorem indexTrack_upsert_append_only_invariant_witness :
    ("1", sampleTrack) ∈
      ([("1", sampleTrack)].foldl (fun j kv => j.IndexTrack kv.1 kv.2)
        (NewSpotifyLibraryIndex 1 0)).tracksByID
    ∧ ([("1", sampleTrack)].foldl (fun j kv => j.IndexTrack kv.1 kv.2)
        (NewSpotifyLibraryIndex 1 0)).trackSearchTree.Contains
        (searchTerm sampleTrack) = true :=
  ⟨by decide,
   indexTrack_upsert_append_only_invariant.2.2 [("1", sampleTrack)] 1 0
     ("1", sampleTrack) (by decide)⟩

/-- A record whose artist set is the query's set. -/
def trackAnnBob : SavedTrack :=
  { id := "1", name := "Song A", albumName := "X", artists := ["Ann", "Bob"] }

/-- A record with the same name and album but a strictly smaller artist
set. -/
def trackAnnOnly : SavedTrack :=
  { id := "2", name := "Song A", albumName := "X", artists := ["Ann"] }

/-- An index holding both records. -/
def indexWithBoth : SpotifyLibraryIndex :=
  ((NewSpotifyLibraryIndex 10 0).IndexTrack "1" trackAnnBob).IndexTrack "2" trackAnnOnly

/-- Claim C1 (refuting evaluation): on a trie hit the exact-field scan also
returns `trackAnnOnly`, whose tertiary-name set is a strict subset of the
query's set ("Bob" is queried but absent from the record).  The length
guard of `containsAll` compares `len(list2)` with itself, so the scan only
checks that each of the record's artist names occurs in the query list. -/
theorem lookupByComposite_matches_smaller_artist_set :
    (indexWithBoth.GetBySongAlbumArtistNamesScan "Song A" "X" ["Bob", "Ann"]).1
      = [trackAnnBob, trackAnnOnly]
    ∧ "Bob" ∈ (["Bob", "Ann"] : List String)
    ∧ "Bob" ∉ getArtistNames trackAnnOnly := by
  exact ⟨by decide, by decide, by decide⟩

/-! ## Library service orchestration (`main.go`) -/

/-- `StoredLibrary`: the on-disk snapshot — an expiration timestamp plus
the full list of records (the trie is rebuilt from the records on load). -/
structure StoredLibrary : Type where
  expiration : Nat
  tracks : List SavedTrack
deriving Repr, DecidableEq

/-- `LibraryService` together with the durable cache file it owns:
`libraryIndex` is the in-memory index, `store` the contents of the cache
file (`none` when the file is missing, unreadable or corrupt). -/
structure ServiceState : Type where
  libraryIndex : SpotifyLibraryIndex
  store : Option StoredLibrary
deriving Repr

/-- The external paginated source (`spClient.CurrentUsersTracks` plus
`NextPage`): the pages it delivers, and whether the drain terminates with
the clean `ErrNoMorePages` sentinel (`clean = true`) or with a
non-recoverable error (`clean = false`; with no pages this is an error on
the initial fetch). -/
structure Source : Type where
  pages : List (List SavedTrack)
  clean : Bool
deriving Repr

/-- `persistLibrary`: serializes the current index (its eviction time and
the values of its identifier map) and writes the snapshot to the cache
file.  The failure modes (`json.Marshal`, `os.MkdirAll`,
`ioutil.WriteFile`) are collapsed into the `persistOk` flag; on failure
the error is returned and the store is untouched. -/
def persistLibrary (persistOk : Bool) (s : ServiceState) : Except Unit ServiceState :=
  if persistOk then
    Except.ok
      { s with
        store := some ⟨s.libraryIndex.evictionTime,
          s.libraryIndex.tracksByID.map Prod.snd⟩ }
  else
    Except.error ()

/-- `indexFromSpotify`: builds a fresh local index, drains the source page
by page feeding every track through `IndexTrack`, then calls `MakeItFresh`
and installs the new index on the service.  On a non-recoverable source
error (initial fetch or any `NextPage`) the error is returned; the
partially built local index never reaches the service state, so the
caller's installed index is unchanged, and no snapshot is written on any
path of this function. -/
def indexFromSpotify (src : Source) (now cfgLifetime : Nat) (s : ServiceState) :
    Except Unit ServiceState :=
  if src.clean then
    Except.ok { s with libraryIndex :=
      ((src.pages.flatten.foldl (fun i t => i.IndexTrack t.id t)
        (NewSpotifyLibraryIndex cfgLifetime now)).MakeItFresh now) }
  else
    Except.error ()

/-- `indexFromCacheFile`: reads the snapshot, feeds every stored track
through `IndexTrack`, overrides the eviction time with the stored
expiration and installs the index — even when that expiration has already
passed (the caller re-checks `Alive`).  A missing or unparsable file is an
error, which the caller only logs. -/
def indexFromCacheFile (now cfgLifetime : Nat) (s : ServiceState) :
    Except Unit ServiceState :=
  match s.store with
  | none => Except.error ()
  | some lib =>
    Except.ok { s with libraryIndex :=
      { (lib.tracks.foldl (fun i t => i.IndexTrack t.id t)
          (NewSpotifyLibraryIndex cfgLifetime now)) with
        evictionTime := lib.expiration } }

/-- `readyLibrary`: nothing to do while the installed index is alive;
otherwise try the cache file (a failure there is only logged and leaves
the state unchanged), re-check `Alive`, and if still stale rebuild from
the external source.  No path of this function writes the snapshot. -/
def readyLibrary (src : Source) (now cfgLifetime : Nat) (s : ServiceState) :
    Except Unit ServiceState :=
  if s.libraryIndex.Alive now then
    Except.ok s
  else
    let s1 := match indexFromCacheFile now cfgLifetime s with
      | Except.ok s' => s'
      | Except.error _ => s
    if s1.libraryIndex.Alive now then
      Except.ok s1
    else
      indexFromSpotify src now cfgLifetime s1

/-- The zero value `&SpotifyLibraryIndex{}` that `NewLibraryService`
installs before calling `readyLibrary`: empty map and tree, zero lifetime,
and the zero time as eviction time, so it is never alive. -/
def zeroIndex : SpotifyLibraryIndex :=
  { tracksByID := [], trackSearchTree := NewPrefixTree, lifetime := 0, evictionTime := 0 }

/-- `NewLibraryService` (the authentication step is modelled as having
succeeded): readies the library starting from the given cache-file
contents and then persists it; an error from either step — including a
failed persist after a successful rebuild — is returned to the caller and
no service is produced. -/
def newLibraryService (src : Source) (persistOk : Bool) (now cfgLifetime : Nat)
    (initialStore : Option StoredLibrary) : Except Unit ServiceState :=
  match readyLibrary src now cfgLifetime
      { libraryIndex := zeroIndex, store := initialStore } with
  | Except.error e => Except.error e
  | Except.ok s1 => persistLibrary persistOk s1

/-- `GetByID`: readies the library (lazily rebuilding a stale index) and
reads the identifier map; a readying error is propagated unchanged. -/
def GetByID (src : Source) (now cfgLifetime : Nat) (s : ServiceState) (k : String) :
    Except Unit (Option SavedTrack × ServiceState) :=
  match readyLibrary src now cfgLifetime s with
  | Except.error e => Except.error e
  | Except.ok s1 => Except.ok (mapRead s1.libraryIndex.tracksByID k, s1)

section ServiceLemmas

theorem lifetime_foldl_indexTrack (ts : List SavedTrack) :
    ∀ i : SpotifyLibraryIndex,
      (ts.foldl (fun j t => j.IndexTrack t.id t) i).lifetime = i.lifetime := by
  induction ts with
  | nil => intro i; rfl
  | cons t rest ih => intro i; rw [List.foldl_cons, ih]; rfl

end ServiceLemmas

/-- Claim C6: a non-recoverable source error fails the rebuild atomically —
`indexFromSpotify` returns the error, so the partially built index is
discarded and the caller keeps its previous state (in this functional
embedding no new state is produced at all, hence the installed index and
the durable store are untouched); a read that triggers such a rebuild
propagates the error. -/
theorem rebuild_source_error_atomic :
    (∀ (src : Source) (now cfg : Nat) (s : ServiceState), src.clean = false →
      indexFromSpotify src now cfg s = Except.error ())
    ∧ (∀ (src : Source) (now cfg : Nat) (s : ServiceState),
      s.libraryIndex.Alive now = false → s.store = none → src.clean = false →
      readyLibrary src now cfg s = Except.error ()
      ∧ GetByID src now cfg s "" = Except.error ()) := by
  have h1 : ∀ (src : Source) (now cfg : Nat) (s : ServiceState), src.clean = false →
      indexFromSpotify src now cfg s = Except.error () := by
    intro src now cfg s h
    simp [indexFromSpotify, h]
  refine ⟨h1, ?_⟩
  intro src now cfg s ha hst hc
  have hr : readyLibrary src now cfg s = Except.error () := by
    simp [readyLibrary, ha, indexFromCacheFile, hst, h1 _ _ _ _ hc]
  exact ⟨hr, by simp [GetByID, hr]⟩

/-- Witness for C6 on a concrete erroring source and a stale service. -/
theorem rebuild_source_error_atomic_witness :
    indexFromSpotify ⟨[[sampleTrack]], false⟩ 0 10 ⟨zeroIndex, none⟩ = Except.error ()
    ∧ readyLibrary ⟨[[sampleTrack]], false⟩ 0 10 ⟨zeroIndex, none⟩ = Except.error () :=
  ⟨rebuild_source_error_atomic.1 ⟨[[sampleTrack]], false⟩ 0 10 ⟨zeroIndex, none⟩ rfl,
   (rebuild_source_error_atomic.2 ⟨[[sampleTrack]], false⟩ 0 10 ⟨zeroIndex, none⟩
     rfl rfl rfl).1⟩

/-- Claim C2 (refuting evaluation): with a clean one-page source and a
failing snapshot write, the in-memory rebuild succeeds (`readyLibrary`
returns a state) but `NewLibraryService` returns the persist error instead
of a working service. -/
theorem newLibraryService_persist_error_returned_example :
    (readyLibrary ⟨[[sampleTrack]], true⟩ 0 10 ⟨zeroIndex, none⟩).toOption.isSome = true
    ∧ newLibraryService ⟨[[sampleTrack]], true⟩ false 0 10 none = Except.error () :=
  ⟨rfl, rfl⟩

/-- Claim C2 (amended): a snapshot-write failure is not best-effort in
`NewLibraryService` — whenever persistence fails, the constructor returns
the error and no service, whatever the source delivered and however the
rebuild went. -/
theorem newLibraryService_persist_error_returned (src : Source) (now cfg : Nat)
    (st : Option StoredLibrary) :
    newLibraryService src false now cfg st = Except.error () := by
  unfold newLibraryService
  cases h : readyLibrary src now cfg { libraryIndex := zeroIndex, store := st } with
  | error e => cases e; rfl
  | ok s1 => simp [persistLibrary]

/-- The state produced by a lazy read on a stale service whose cache file
is unusable, against a clean one-page source. -/
def lazyReadResult : Option SavedTrack × ServiceState :=
  match GetByID ⟨[[sampleTrack]], true⟩ 0 10 ⟨zeroIndex, none⟩ "1" with
  | Except.ok r => r
  | Except.error _ => (none, ⟨zeroIndex, none⟩)

/-- Claim C3 (refuting evaluation): a read on a stale service triggers a
successful rebuild from the source — the track becomes readable and
`MakeItFresh` has set the eviction time to `now + lifetime = 10` — yet the
durable store still holds nothing: the lazy rebuild wrote no snapshot. -/
theorem lazy_rebuild_writes_no_snapshot :
    (GetByID ⟨[[sampleTrack]], true⟩ 0 10 ⟨zeroIndex, none⟩ "1").toOption.isSome = true
    ∧ lazyReadResult.1 = some sampleTrack
    ∧ lazyReadResult.2.libraryIndex.evictionTime = 10
    ∧ lazyReadResult.2.store = none :=
  ⟨rfl, rfl, rfl, rfl⟩

/-- Claim C3 (amended): after every successful source rebuild `MakeItFresh`
has run — the installed eviction time is `now + lifetime` — but no lazy
path writes a snapshot: `readyLibrary` always leaves the durable store
exactly as it found it, and only the constructor persists, writing the
snapshot of the index it just readied. -/
theorem markFresh_always_but_snapshot_only_in_constructor :
    (∀ (src : Source) (now cfg : Nat) (s s' : ServiceState),
      readyLibrary src now cfg s = Except.ok s' → s'.store = s.store)
    ∧ (∀ (src : Source) (now cfg : Nat) (s s' : ServiceState),
      src.clean = true → indexFromSpotify src now cfg s = Except.ok s' →
      s'.libraryIndex.evictionTime = now + cfg)
    ∧ (∀ (src : Source) (persistOk : Bool) (now cfg : Nat)
        (st : Option StoredLibrary) (s' : ServiceState),
      newLibraryService src persistOk now cfg st = Except.ok s' →
      s'.store = some ⟨s'.libraryIndex.evictionTime,
        s'.libraryIndex.tracksByID.map Prod.snd⟩) := by
  have hspot : ∀ (src : Source) (now cfg : Nat) (s s' : ServiceState),
      indexFromSpotify src now cfg s = Except.ok s' → s'.store = s.store := by
    intro src now cfg s s' h
    cases hc : src.clean
    · simp [indexFromSpotify, hc] at h
    · simp [indexFromSpotify, hc] at h
      rw [← h]
  refine ⟨?_, ?_, ?_⟩
  · intro src now cfg s s' h
    unfold readyLibrary at h
    by_cases ha : s.libraryIndex.Alive now = true
    · rw [if_pos ha] at h
      rw [← Except.ok.inj h]
    · rw [if_neg ha] at h
      cases hcf : indexFromCacheFile now cfg s with
      | ok s1 =>
        rw [hcf] at h
        simp only at h
        have hstore1 : s1.store = s.store := by
          cases hst : s.store with
          | none => simp [indexFromCacheFile, hst] at hcf
          | some lib =>
            simp [indexFromCacheFile, hst] at hcf
            rw [← hcf]
        by_cases ha1 : s1.libraryIndex.Alive now = true
        · rw [if_pos ha1] at h
          rw [← Except.ok.inj h]
          exact hstore1
        · rw [if_neg ha1] at h
          rw [hspot _ _ _ _ _ h]
          exact hstore1
      | error e =>
        rw [hcf] at h
        simp only at h
        by_cases ha1 : s.libraryIndex.Alive now = true
        · rw [if_pos ha1] at h
          rw [← Except.ok.inj h]
        · rw [if_neg ha1] at h
          exact hspot _ _ _ _ _ h
  · intro src now cfg s s' hc h
    simp [indexFromSpotify, hc] at h
    rw [← h]
    simp [SpotifyLibraryIndex.MakeItFresh, lifetime_foldl_indexTrack,
      NewSpotifyLibraryIndex]
  · intro src persistOk now cfg st s' h
    unfold newLibraryService at h
    cases hr : readyLibrary src now cfg { libraryIndex := zeroIndex, store := st } with
    | error e => rw [hr] at h; cases h
    | ok s1 =>
      rw [hr] at h
      cases hp : persistOk
      · rw [hp] at h; simp [persistLibrary] at h
      · rw [hp] at h
        simp only [persistLibrary, if_pos] at h
        rw [← Except.ok.inj h]

/-- The state `readyLibrary` produces on a concrete stale service. -/
def readyStateExample : ServiceState :=
  match readyLibrary ⟨[[sampleTrack]], true⟩ 0 10 ⟨zeroIndex, none⟩ with
  | Except.ok s => s
  | Except.error _ => ⟨zeroIndex, none⟩

/-- The state `indexFromSpotify` produces on the same concrete inputs. -/
def spotifyStateExample : ServiceState :=
  match indexFromSpotify ⟨[[sampleTrack]], true⟩ 0 10 ⟨zeroIndex, none⟩ with
  | Except.ok s => s
  | Except.error _ => ⟨zeroIndex, none⟩

/-- The service `NewLibraryService` produces on the same concrete inputs
with persistence succeeding. -/
def builtServiceExample : ServiceState :=
  match newLibraryService ⟨[[sampleTrack]], true⟩ true 0 10 none with
  | Except.ok s => s
  | Except.error _ => ⟨zeroIndex, none⟩

/-- Witness for the amended C3 on concrete runs of all three paths. -/
theorem markFresh_always_but_snapshot_only_in_constructor_witness :
    readyStateExample.store = none
    ∧ spotifyStateExample.libraryIndex.evictionTime = 0 + 10
    ∧ builtServiceExample.store = some ⟨builtServiceExample.libraryIndex.evictionTime,
        builtServiceExample.libraryIndex.tracksByID.map Prod.snd⟩ :=
  ⟨markFresh_always_but_snapshot_only_in_constructor.1 ⟨[[sampleTrack]], true⟩ 0 10
      ⟨zeroIndex, none⟩ readyStateExample rfl,
   markFresh_always_but_snapshot_only_in_constructor.2.1 ⟨[[sampleTrack]], true⟩ 0 10
      ⟨zeroIndex, none⟩ spotifyStateExample rfl rfl,
   markFresh_always_but_snapshot_only_in_constructor.2.2 ⟨[[sampleTrack]], true⟩ true 0 10
      none builtServiceExample rfl⟩
